import Mathlib

/-!
Shallow embedding of the box-geometry utilities in yolox/utils/boxes.py.

Numeric values are modelled by exact rationals.  A 2-D tensor / numpy array
is a list of rows (each row a list of rationals); tensors of shape [N, M, 2]
that arise from broadcasting the two box batches against each other are
lists of lists of pairs.  The in-place torch path of bboxes_iou is embedded
as explicit state passing over a record of the local tensor variables, one
step per source line; every torch op that allocates a fresh tensor writes a
fresh field, and every trailing-underscore op rewrites only the field it is
called on, mirroring torch semantics where torch.max / torch.min /
torch.prod allocate new tensors and sub_ / clamp_min_ / div_ mutate their
receiver only.
-/

set_option autoImplicit false

namespace Yolox

/-- A row of a 2-D array: a list of rational entries. -/
abbrev Row := List ℚ

/-- Select the elements of a list whose mask entry is true: numpy / torch
boolean-mask indexing, order preserving. -/
def maskSelect {α : Type} : List α → List Bool → List α
  | [], _ => []
  | _, [] => []
  | x :: xs, b :: bs => if b then x :: maskSelect xs bs else maskSelect xs bs

/-- Columns 0 and 1 of each row: the slice rows[:, :2]. -/
def sliceTL (rows : List Row) : List (ℚ × ℚ) :=
  rows.map (fun r => (r.getD 0 0, r.getD 1 0))

/-- Columns 2 and 3 of each row: the slice rows[:, 2:] of a 4-column array. -/
def sliceBR (rows : List Row) : List (ℚ × ℚ) :=
  rows.map (fun r => (r.getD 2 0, r.getD 3 0))

/-- Center-form top-left corners: rows[:, :2] - rows[:, 2:] / 2. -/
def sliceCTL (rows : List Row) : List (ℚ × ℚ) :=
  rows.map (fun r => (r.getD 0 0 - r.getD 2 0 / 2, r.getD 1 0 - r.getD 3 0 / 2))

/-- Center-form bottom-right corners: rows[:, :2] + rows[:, 2:] / 2. -/
def sliceCBR (rows : List Row) : List (ℚ × ℚ) :=
  rows.map (fun r => (r.getD 0 0 + r.getD 2 0 / 2, r.getD 1 0 + r.getD 3 0 / 2))

/-- Broadcast a binary elementwise op over a[:, None] against b: the
result has one row per element of a and one column per element of b. -/
def bcast2 {α : Type} (f : ℚ × ℚ → ℚ × ℚ → α) (la lb : List (ℚ × ℚ)) :
    List (List α) :=
  la.map (fun p => lb.map (f p))

/-- Elementwise binary op on two same-shaped 2-D arrays. -/
def zip2D {α β γ : Type} (f : α → β → γ) (x : List (List α))
    (y : List (List β)) : List (List γ) :=
  List.zipWith (List.zipWith f) x y

/-- Elementwise unary op on a 2-D array. -/
def map2D {α β : Type} (f : α → β) (x : List (List α)) : List (List β) :=
  x.map (fun row => row.map f)

/-- Componentwise max of two coordinate pairs (torch.max broadcasting). -/
def pmax (p q : ℚ × ℚ) : ℚ × ℚ := (max p.1 q.1, max p.2 q.2)

/-- Componentwise min of two coordinate pairs (torch.min broadcasting). -/
def pmin (p q : ℚ × ℚ) : ℚ × ℚ := (min p.1 q.1, min p.2 q.2)

/-- Componentwise subtraction of coordinate pairs (tensor sub). -/
def psub (p q : ℚ × ℚ) : ℚ × ℚ := (p.1 - q.1, p.2 - q.2)

/-- Componentwise clamp to a minimum of 0 (clamp_min_(0) / clamp(min=0)). -/
def pclamp0 (p : ℚ × ℚ) : ℚ × ℚ := (max p.1 0, max p.2 0)

/-- Product over the last axis of a [N, M, 2] array entry: torch.prod(·, 2). -/
def pprod (p : ℚ × ℚ) : ℚ := p.1 * p.2

/-- Row area of a corner-form box: torch.prod(rows[:, 2:] - rows[:, :2], 1). -/
def rowAreaXyxy (r : Row) : ℚ :=
  (r.getD 2 0 - r.getD 0 0) * (r.getD 3 0 - r.getD 1 0)

/-- Row area of a center-form box: torch.prod(rows[:, 2:], 1). -/
def rowAreaWH (r : Row) : ℚ := r.getD 2 0 * r.getD 3 0

/-- The broadcast union matrix area_a[:, None] + area_b - area_i. -/
def bcastUnion (aa ab : List ℚ) (ai : List (List ℚ)) : List (List ℚ) :=
  List.zipWith (fun x row => List.zipWith (fun y v => x + y - v) ab row) aa ai

/-- The local tensor variables of the in-place branch of bboxes_iou.
Fields a and b hold the caller's input arrays; the rest are the
locals, empty until their allocating line runs. -/
structure TorchEnv where
  a : List Row
  b : List Row
  tl : List (List (ℚ × ℚ))
  br_hw : List (List (ℚ × ℚ))
  area_ious : List (List ℚ)
  area_a : List ℚ
  area_b : List ℚ
  union : List (List ℚ)
deriving Repr

/-- Initial state: only the two inputs are live. -/
def initEnv (A B : List Row) : TorchEnv := ⟨A, B, [], [], [], [], [], []⟩

/-- tl = torch.max(bboxes_a[:, None, :2], bboxes_b[:, :2])  (fresh tensor). -/
def stepTlXyxy (s : TorchEnv) : TorchEnv :=
  { s with tl := bcast2 pmax (sliceTL s.a) (sliceTL s.b) }

/-- br_hw = torch.min(bboxes_a[:, None, 2:], bboxes_b[:, 2:])  (fresh tensor). -/
def stepBrXyxy (s : TorchEnv) : TorchEnv :=
  { s with br_hw := bcast2 pmin (sliceBR s.a) (sliceBR s.b) }

/-- tl = torch.max(a[:, None, :2] - a[:, None, 2:] / 2, b[:, :2] - b[:, 2:] / 2). -/
def stepTlCxcywh (s : TorchEnv) : TorchEnv :=
  { s with tl := bcast2 pmax (sliceCTL s.a) (sliceCTL s.b) }

/-- br_hw = torch.min(a[:, None, :2] + a[:, None, 2:] / 2, b[:, :2] + b[:, 2:] / 2). -/
def stepBrCxcywh (s : TorchEnv) : TorchEnv :=
  { s with br_hw := bcast2 pmin (sliceCBR s.a) (sliceCBR s.b) }

/-- br_hw.sub_(tl): in-place subtraction, rewrites br_hw only. -/
def stepSub (s : TorchEnv) : TorchEnv :=
  { s with br_hw := zip2D psub s.br_hw s.tl }

/-- br_hw.clamp_min_(0): in-place clamp, rewrites br_hw only. -/
def stepClamp (s : TorchEnv) : TorchEnv :=
  { s with br_hw := map2D pclamp0 s.br_hw }

/-- area_ious = torch.prod(br_hw, 2)  (fresh tensor). -/
def stepProd (s : TorchEnv) : TorchEnv :=
  { s with area_ious := map2D pprod s.br_hw }

/-- area_a = torch.prod(bboxes_a[:, 2:] - bboxes_a[:, :2], 1)  (fresh). -/
def stepAreaAXyxy (s : TorchEnv) : TorchEnv :=
  { s with area_a := s.a.map rowAreaXyxy }

/-- area_b = torch.prod(bboxes_b[:, 2:] - bboxes_b[:, :2], 1)  (fresh). -/
def stepAreaBXyxy (s : TorchEnv) : TorchEnv :=
  { s with area_b := s.b.map rowAreaXyxy }

/-- area_a = torch.prod(bboxes_a[:, 2:], 1)  (fresh). -/
def stepAreaAWH (s : TorchEnv) : TorchEnv :=
  { s with area_a := s.a.map rowAreaWH }

/-- area_b = torch.prod(bboxes_b[:, 2:], 1)  (fresh). -/
def stepAreaBWH (s : TorchEnv) : TorchEnv :=
  { s with area_b := s.b.map rowAreaWH }

/-- union = area_a[:, None] + area_b - area_ious  (fresh tensor). -/
def stepUnion (s : TorchEnv) : TorchEnv :=
  { s with union := bcastUnion s.area_a s.area_b s.area_ious }

/-- area_ious.div_(union): in-place division, rewrites area_ious only. -/
def stepDiv (s : TorchEnv) : TorchEnv :=
  { s with area_ious := zip2D (fun x y => x / y) s.area_ious s.union }

/-- Run of the in-place xyxy branch of bboxes_iou, one step per line. -/
def runInplaceXyxy (A B : List Row) : TorchEnv :=
  stepDiv (stepUnion (stepAreaBXyxy (stepAreaAXyxy (stepProd (stepClamp
    (stepSub (stepBrXyxy (stepTlXyxy (initEnv A B)))))))))

/-- Run of the in-place center-form branch of bboxes_iou. -/
def runInplaceCxcywh (A B : List Row) : TorchEnv :=
  stepDiv (stepUnion (stepAreaBWH (stepAreaAWH (stepProd (stepClamp
    (stepSub (stepBrCxcywh (stepTlCxcywh (initEnv A B)))))))))

/-- Final state of the in-place branch selected by the xyxy flag. -/
def inplaceEnv (A B : List Row) (xyxy : Bool) : TorchEnv :=
  if xyxy then runInplaceXyxy A B else runInplaceCxcywh A B

/-- Return value of the in-place branch: the (mutated) area_ious tensor. -/
def inplaceIous (A B : List Row) (xyxy : Bool) : List (List ℚ) :=
  (inplaceEnv A B xyxy).area_ious

/-- The allocation branch of bboxes_iou (inplace=False), directly functional:
hw = (br - tl).clamp(min=0); area_i = torch.prod(hw, 2);
ious = area_i / (area_a[:, None] + area_b - area_i). -/
def freshIous (A B : List Row) (xyxy : Bool) : List (List ℚ) :=
  let tl := if xyxy then bcast2 pmax (sliceTL A) (sliceTL B)
            else bcast2 pmax (sliceCTL A) (sliceCTL B)
  let br := if xyxy then bcast2 pmin (sliceBR A) (sliceBR B)
            else bcast2 pmin (sliceCBR A) (sliceCBR B)
  let area_a := if xyxy then A.map rowAreaXyxy else A.map rowAreaWH
  let area_b := if xyxy then B.map rowAreaXyxy else B.map rowAreaWH
  let hw := map2D pclamp0 (zip2D psub br tl)
  let area_i := map2D pprod hw
  zip2D (fun x y => x / y) area_i (bcastUnion area_a area_b area_i)

/-- The one error this module can raise: the bare IndexError of the
column-count guard in bboxes_iou. -/
inductive PyErr where
  | indexError
deriving Repr, DecidableEq

/-- A rectangular 2-D array together with its column count (shape[1]). -/
structure Mat where
  rows : List Row
  cols : ℕ
  rect : rows.all (fun r => r.length == cols) = true

/-- bboxes_iou(bboxes_a, bboxes_b, xyxy, inplace): guard on the column
counts, then either the state-passing in-place branch or the allocating
branch. -/
def bboxes_iou (A B : Mat) (xyxy inplace : Bool) :
    Except PyErr (List (List ℚ)) :=
  if A.cols ≠ 4 ∨ B.cols ≠ 4 then Except.error PyErr.indexError
  else if inplace then Except.ok (inplaceIous A.rows B.rows xyxy)
  else Except.ok (freshIous A.rows B.rows xyxy)

/-- Center-form to corner-form conversion of a prediction row, the
box_corner block at the top of postprocess: columns 0..3 are rewritten to
(cx - w/2, cy - h/2, cx + w/2, cy + h/2), the remaining columns kept. -/
def cornerizeRow (r : Row) : Row :=
  (r.getD 0 0 - r.getD 2 0 / 2) :: (r.getD 1 0 - r.getD 3 0 / 2) ::
  (r.getD 0 0 + r.getD 2 0 / 2) :: (r.getD 1 0 + r.getD 3 0 / 2) :: r.drop 4

/-- The class-score slice image_pred[:, 5 : 5 + num_classes] of one row. -/
def classScores (nc : ℕ) (r : Row) : List ℚ := (r.drop 5).take nc

/-- Tail-scanning worker for the max-with-argmax over class scores. -/
def classMaxGo : ℚ × ℕ → ℕ → List ℚ → ℚ × ℕ
  | best, _, [] => best
  | best, i, x :: xs =>
    if x > best.1 then classMaxGo (x, i) (i + 1) xs
    else classMaxGo best (i + 1) xs

/-- torch.max(scores, 1): the maximum value together with the index of its
first occurrence; (0, 0) on the empty slice, which torch would reject. -/
def classMax : List ℚ → ℚ × ℕ
  | [] => (0, 0)
  | x :: xs => classMaxGo (x, 0) 1 xs

/-- Fused confidence of a row: objectness (column 4) times best class score. -/
def fusedConf (nc : ℕ) (r : Row) : ℚ :=
  r.getD 4 0 * (classMax (classScores nc r)).1

/-- One entry of conf_mask: image_pred[:, 4] * class_conf >= conf_thre. -/
def confBool (nc : ℕ) (ct : ℚ) (r : Row) : Bool :=
  decide (ct ≤ fusedConf nc r)

/-- One detection row: [x1, y1, x2, y2, obj_conf, class_conf, class_pred]
with the keypoint / segmentation columns appended when either flag is set. -/
def buildDet (nc : ℕ) (kp sg : Bool) (r : Row) : Row :=
  r.take 5 ++ [(classMax (classScores nc r)).1,
    ((classMax (classScores nc r)).2 : ℚ)] ++
  (if kp || sg then r.drop (5 + nc) else [])

/-- The rows handed to NMS for one image: detections built from the
corner-converted rows, then boolean-mask selected by conf_mask. -/
def retainedForNMS (nc : ℕ) (ct : ℚ) (kp sg : Bool) (img : List Row) :
    List Row :=
  let rows := img.map cornerizeRow
  maskSelect (rows.map (buildDet nc kp sg)) (rows.map (confBool nc ct))

/-- Scalar corner-form IoU of the first four columns of two detection rows,
intersection over union with width and height clamped at zero. -/
def iouXyxy (p q : Row) : ℚ :=
  let w := max (min (p.getD 2 0) (q.getD 2 0) - max (p.getD 0 0) (q.getD 0 0)) 0
  let h := max (min (p.getD 3 0) (q.getD 3 0) - max (p.getD 1 0) (q.getD 1 0)) 0
  let ai := w * h
  ai / ((p.getD 2 0 - p.getD 0 0) * (p.getD 3 0 - p.getD 1 0) +
        (q.getD 2 0 - q.getD 0 0) * (q.getD 3 0 - q.getD 1 0) - ai)

/-- NMS score of a detection row: detections[:, 4] * detections[:, 5]. -/
def nmsScore (r : Row) : ℚ := r.getD 4 0 * r.getD 5 0

/-- Predicted class id of a detection row: detections[:, 6]. -/
def clsOf (r : Row) : ℚ := r.getD 6 0

/-- First indexed row with the strictly largest NMS score. -/
def pickBest : ℕ × Row → List (ℕ × Row) → ℕ × Row
  | best, [] => best
  | best, q :: qs =>
    if nmsScore q.2 > nmsScore best.2 then pickBest q qs else pickBest best qs

/-- Modelled from the spec: greedy non-max suppression, the contract of the
external torchvision.ops.nms / batched_nms primitives that postprocess
delegates to (the primitives themselves are not part of this repository).
Select the highest remaining score, drop every unselected candidate whose
IoU with it exceeds the threshold — in class-agnostic mode across all
classes, otherwise only among candidates of the selected row's class —
and repeat.  Fuel bounds the recursion by the candidate count. -/
def nmsGo (nt : ℚ) (agn : Bool) : ℕ → List (ℕ × Row) → List ℕ
  | 0, _ => []
  | _, [] => []
  | fuel + 1, p :: ps =>
    let best := pickBest p ps
    let rest := (p :: ps).filter (fun q =>
      q.1 ≠ best.1 &&
      !(decide (nt < iouXyxy best.2 q.2) &&
        (agn || decide (clsOf q.2 = clsOf best.2))))
    best.1 :: nmsGo nt agn fuel rest

/-- Modelled from the spec: the surviving indices, in selection order
(descending fused score), returned by the NMS primitive. -/
def nmsIndices (nt : ℚ) (agn : Bool) (dets : List Row) : List ℕ :=
  nmsGo nt agn dets.length dets.enum

/-- Per-image body of postprocess: skip empty images, filter by fused
confidence, skip when nothing survives, otherwise reindex the retained
detections by the NMS output indices.  The no-detections sentinel None of
the source is the Option none. -/
def postprocessImage (nc : ℕ) (ct nt : ℚ) (agn kp sg : Bool)
    (img : List Row) : Option (List Row) :=
  if img.isEmpty then none
  else
    let retained := retainedForNMS nc ct kp sg img
    if retained.isEmpty then none
    else some ((nmsIndices nt agn retained).map (fun i => retained.getD i []))

/-- postprocess over a batch: one optional detection list per image,
aligned with the input order. -/
def postprocess (nc : ℕ) (ct nt : ℚ) (agn kp sg : Bool)
    (pred : List (List Row)) : List (Option (List Row)) :=
  pred.map (postprocessImage nc ct nt agn kp sg)

/-- Box width column of filter_box: output[:, 2] - output[:, 0]. -/
def rowW (r : Row) : ℚ := r.getD 2 0 - r.getD 0 0

/-- Box height column of filter_box: output[:, 3] - output[:, 1]. -/
def rowH (r : Row) : ℚ := r.getD 3 0 - r.getD 1 0

/-- filter_box(output, scale_range): keep the rows whose area lies strictly
between min_scale² and max_scale², by boolean-mask selection. -/
def filter_box (output : List Row) (scale_range : ℚ × ℚ) : List Row :=
  let min_scale := scale_range.1
  let max_scale := scale_range.2
  let keep := output.map (fun r =>
    decide (rowW r * rowH r > min_scale * min_scale) &&
    decide (rowW r * rowH r < max_scale * max_scale))
  maskSelect output keep

/-- The 0/1 validity mask np.array(landmarks > 0) of one landmark row. -/
def maskRow (r : Row) : Row := r.map (fun v => if 0 < v then (1 : ℚ) else 0)

/-- The strided rescale landmarks[:, 0::2] * sr + pw and
landmarks[:, 1::2] * sr + ph of one row: even positions get the x padding,
odd positions the y padding. -/
def scaleRow (sr pw ph : ℚ) : Row → Row
  | x :: y :: rest => (x * sr + pw) :: (y * sr + ph) :: scaleRow sr pw ph rest
  | [x] => [x * sr + pw]
  | [] => []

/-- landmarks * mask + mask - 1, elementwise. -/
def combineRow : Row → Row → Row :=
  List.zipWith (fun v m => v * m + m - 1)

/-- The explicit bounds loop: every (x, y) point with x < 0, y < 0,
x > w_max or y > h_max is overwritten with (-1, -1). -/
def boundsRow (wM hM : ℚ) : Row → Row
  | x :: y :: rest =>
    if x < 0 ∨ y < 0 ∨ wM < x ∨ hM < y then
      (-1 : ℚ) :: (-1 : ℚ) :: boundsRow wM hM rest
    else x :: y :: boundsRow wM hM rest
  | l => l

/-- adjust_lmks_anns(landmarks, scale_ratio, padw, padh, w_max, h_max):
mask from the original sign, strided rescale, mask combination, then the
bounds loop, row by row. -/
def adjust_lmks_anns (sr pw ph wM hM : ℚ) (lms : List Row) : List Row :=
  lms.map (fun row =>
    boundsRow wM hM (combineRow (scaleRow sr pw ph row) (maskRow row)))

/-- A row of a box batch: the four coordinate columns the conversion
functions touch, plus whatever trailing columns the batch carries. -/
@[ext]
structure Row4 where
  c0 : ℚ
  c1 : ℚ
  c2 : ℚ
  c3 : ℚ
  rest : List ℚ
deriving Repr, DecidableEq

/-- Per-row body of xyxy2xywh: column 2 becomes the width, then column 3
the height, sequentially on the mutated row. -/
def rowXyxy2xywh (b : Row4) : Row4 :=
  let b1 := { b with c2 := b.c2 - b.c0 }
  { b1 with c3 := b1.c3 - b1.c1 }

/-- xyxy2xywh(bboxes): corner form to (x1, y1, w, h), row by row. -/
def xyxy2xywh (bboxes : List Row4) : List Row4 := bboxes.map rowXyxy2xywh

/-- Per-row body of xyxy2cxcywh: width and height first, then the center
coordinates from the already-overwritten columns, sequentially. -/
def rowXyxy2cxcywh (b : Row4) : Row4 :=
  let b1 := { b with c2 := b.c2 - b.c0 }
  let b2 := { b1 with c3 := b1.c3 - b1.c1 }
  let b3 := { b2 with c0 := b2.c0 + b2.c2 * (1 / 2) }
  { b3 with c1 := b3.c1 + b3.c3 * (1 / 2) }

/-- xyxy2cxcywh(bboxes): corner form to (cx, cy, w, h), row by row. -/
def xyxy2cxcywh (bboxes : List Row4) : List Row4 := bboxes.map rowXyxy2cxcywh

/-- Modelled from the spec: the inverse reconstruction x2 = x1 + w,
y2 = y1 + h of the round-trip property for xyxy2xywh. -/
def reconXywh (b : Row4) : Row4 :=
  ⟨b.c0, b.c1, b.c0 + b.c2, b.c1 + b.c3, b.rest⟩

/-- Modelled from the spec: the inverse reconstruction x1 = cx - w/2,
y1 = cy - h/2, x2 = cx + w/2, y2 = cy + h/2 for xyxy2cxcywh. -/
def reconCxcywh (b : Row4) : Row4 :=
  ⟨b.c0 - b.c2 * (1 / 2), b.c1 - b.c3 * (1 / 2),
   b.c0 + b.c2 * (1 / 2), b.c1 + b.c3 * (1 / 2), b.rest⟩

/-- Epsilon added to the union denominator in matrix_iou (1e-12). -/
def matEps : ℚ := 1 / 1000000000000

/-- matrix_iou(a, b): numpy pairwise IoU with a strict-overlap mask on the
intersection area and an epsilon-guarded denominator. -/
def matrix_iou (a b : List Row) : List (List ℚ) :=
  let lt := bcast2 pmax (sliceTL a) (sliceTL b)
  let rb := bcast2 pmin (sliceBR a) (sliceBR b)
  let area_i := zip2D (fun x m => x * m)
    (map2D pprod (zip2D psub rb lt))
    (zip2D (fun p q : ℚ × ℚ => if p.1 < q.1 ∧ p.2 < q.2 then (1 : ℚ) else 0)
      lt rb)
  let area_a := a.map rowAreaXyxy
  let area_b := b.map rowAreaXyxy
  zip2D (fun x y => x / y) area_i
    (map2D (fun v => v + matEps) (bcastUnion area_a area_b area_i))

/-! ### Helper lemmas -/

theorem maskSelect_map_self {α : Type} (l : List α) (g : α → Bool) :
    maskSelect l (l.map g) = l.filter g := by
  induction l with
  | nil => rfl
  | cons x xs ih =>
    by_cases h : g x <;> simp [maskSelect, List.filter, h, ih]

theorem maskSelect_map_map {α β : Type} (l : List α) (f : α → β)
    (g : α → Bool) :
    maskSelect (l.map f) (l.map g) = (l.filter g).map f := by
  induction l with
  | nil => rfl
  | cons x xs ih =>
    by_cases h : g x <;> simp [maskSelect, List.filter, h, ih]

theorem clamp_prod_zero (x y : ℚ) (h : x ≤ 0 ∨ y ≤ 0) :
    max x 0 * max y 0 = 0 := by
  rcases h with h | h
  · rw [max_eq_right h, zero_mul]
  · rw [max_eq_right h, mul_zero]

theorem bboxes_iou_xyxy_entry (a0 a1 a2 a3 b0 b1 b2 b3 : ℚ) (ip : Bool) :
    bboxes_iou ⟨[[a0, a1, a2, a3]], 4, rfl⟩ ⟨[[b0, b1, b2, b3]], 4, rfl⟩
        true ip =
      Except.ok [[max (min a2 b2 - max a0 b0) 0 *
          max (min a3 b3 - max a1 b1) 0 /
        ((a2 - a0) * (a3 - a1) + (b2 - b0) * (b3 - b1) -
          max (min a2 b2 - max a0 b0) 0 *
            max (min a3 b3 - max a1 b1) 0)]] := by
  cases ip <;> rfl

theorem matrix_iou_entry (a0 a1 a2 a3 b0 b1 b2 b3 : ℚ) :
    matrix_iou [[a0, a1, a2, a3]] [[b0, b1, b2, b3]] =
      [[(min a2 b2 - max a0 b0) * (min a3 b3 - max a1 b1) *
          (if max a0 b0 < min a2 b2 ∧ max a1 b1 < min a3 b3 then 1 else 0) /
        ((a2 - a0) * (a3 - a1) + (b2 - b0) * (b3 - b1) -
          (min a2 b2 - max a0 b0) * (min a3 b3 - max a1 b1) *
            (if max a0 b0 < min a2 b2 ∧ max a1 b1 < min a3 b3 then 1
             else 0) + matEps)]] := rfl

theorem getD_map {α β : Type} (l : List α) (f : α → β) (j : ℕ) (d : β)
    (e : α) (h : j < l.length) : (l.map f).getD j d = f (l.getD j e) := by
  rw [List.getD_eq_getElem?_getD, List.getElem?_map,
    List.getD_eq_getElem?_getD, List.getElem?_eq_getElem h]
  simp

theorem processRow_cons (sr pw ph wM hM x y : ℚ) (rest : Row) :
    boundsRow wM hM (combineRow (scaleRow sr pw ph (x :: y :: rest))
        (maskRow (x :: y :: rest))) =
      (if (x * sr + pw) * (if 0 < x then (1 : ℚ) else 0) +
            (if 0 < x then (1 : ℚ) else 0) - 1 < 0 ∨
          (y * sr + ph) * (if 0 < y then (1 : ℚ) else 0) +
            (if 0 < y then (1 : ℚ) else 0) - 1 < 0 ∨
          wM < (x * sr + pw) * (if 0 < x then (1 : ℚ) else 0) +
            (if 0 < x then (1 : ℚ) else 0) - 1 ∨
          hM < (y * sr + ph) * (if 0 < y then (1 : ℚ) else 0) +
            (if 0 < y then (1 : ℚ) else 0) - 1 then
        (-1 : ℚ) :: (-1 : ℚ) ::
          boundsRow wM hM (combineRow (scaleRow sr pw ph rest)
            (maskRow rest))
      else
        ((x * sr + pw) * (if 0 < x then (1 : ℚ) else 0) +
            (if 0 < x then (1 : ℚ) else 0) - 1) ::
          ((y * sr + ph) * (if 0 < y then (1 : ℚ) else 0) +
            (if 0 < y then (1 : ℚ) else 0) - 1) ::
          boundsRow wM hM (combineRow (scaleRow sr pw ph rest)
            (maskRow rest))) := rfl

theorem adjustRow_pair (sr pw ph wM hM : ℚ) (k : ℕ) (row : Row)
    (hk : 2 * k + 1 < row.length) :
    ((row.getD (2 * k) 0 ≤ 0 ∨ row.getD (2 * k + 1) 0 ≤ 0) →
      (boundsRow wM hM (combineRow (scaleRow sr pw ph row)
          (maskRow row))).getD (2 * k) 0 = -1 ∧
      (boundsRow wM hM (combineRow (scaleRow sr pw ph row)
          (maskRow row))).getD (2 * k + 1) 0 = -1) ∧
    ((row.getD (2 * k) 0 * sr + pw < 0 ∨
        wM < row.getD (2 * k) 0 * sr + pw ∨
        row.getD (2 * k + 1) 0 * sr + ph < 0 ∨
        hM < row.getD (2 * k + 1) 0 * sr + ph) →
      (boundsRow wM hM (combineRow (scaleRow sr pw ph row)
          (maskRow row))).getD (2 * k) 0 = -1 ∧
      (boundsRow wM hM (combineRow (scaleRow sr pw ph row)
          (maskRow row))).getD (2 * k + 1) 0 = -1) := by
  induction k generalizing row with
  | zero =>
    cases row with
    | nil => simp at hk
    | cons x rowt =>
      cases rowt with
      | nil => simp at hk
      | cons y rest =>
        rw [show (2 * 0 : ℕ) = 0 from rfl] at hk ⊢
        rw [processRow_cons]
        by_cases hcond : (x * sr + pw) * (if 0 < x then (1 : ℚ) else 0) +
              (if 0 < x then (1 : ℚ) else 0) - 1 < 0 ∨
            (y * sr + ph) * (if 0 < y then (1 : ℚ) else 0) +
              (if 0 < y then (1 : ℚ) else 0) - 1 < 0 ∨
            wM < (x * sr + pw) * (if 0 < x then (1 : ℚ) else 0) +
              (if 0 < x then (1 : ℚ) else 0) - 1 ∨
            hM < (y * sr + ph) * (if 0 < y then (1 : ℚ) else 0) +
              (if 0 < y then (1 : ℚ) else 0) - 1
        · rw [if_pos hcond]
          simp
        · rw [if_neg hcond]
          push_neg at hcond
          obtain ⟨hcx, hcy, hwx, hhy⟩ := hcond
          have hx : 0 < x := by
            by_contra hx
            rw [if_neg hx] at hcx
            simp at hcx
            linarith
          have hy : 0 < y := by
            by_contra hy
            rw [if_neg hy] at hcy
            simp at hcy
            linarith
          rw [if_pos hx] at hcx hwx
          rw [if_pos hy] at hcy hhy
          constructor
          · intro h
            rcases h with h | h
            · simp at h
              exact absurd hx (not_lt.mpr h)
            · simp at h
              exact absurd hy (not_lt.mpr h)
          · intro h
            simp only [List.getD_cons_zero, List.getD_cons_succ] at h
            rcases h with h | h | h | h <;> linarith
  | succ k ih =>
    cases row with
    | nil => simp at hk
    | cons x rowt =>
      cases rowt with
      | nil => simp at hk
      | cons y rest =>
        rw [processRow_cons]
        have e1 : 2 * (k + 1) = 2 * k + 1 + 1 := by ring
        rw [e1] at hk ⊢
        have hk2 : 2 * k + 1 < rest.length := by
          simp at hk
          omega
        by_cases hcond : (x * sr + pw) * (if 0 < x then (1 : ℚ) else 0) +
              (if 0 < x then (1 : ℚ) else 0) - 1 < 0 ∨
            (y * sr + ph) * (if 0 < y then (1 : ℚ) else 0) +
              (if 0 < y then (1 : ℚ) else 0) - 1 < 0 ∨
            wM < (x * sr + pw) * (if 0 < x then (1 : ℚ) else 0) +
              (if 0 < x then (1 : ℚ) else 0) - 1 ∨
            hM < (y * sr + ph) * (if 0 < y then (1 : ℚ) else 0) +
              (if 0 < y then (1 : ℚ) else 0) - 1
        · rw [if_pos hcond]
          simp only [List.getD_cons_succ]
          exact ih rest hk2
        · rw [if_neg hcond]
          simp only [List.getD_cons_succ]
          exact ih rest hk2

theorem pickBest_cons (best q : ℕ × Row) (qs : List (ℕ × Row)) :
    pickBest best (q :: qs) =
      if nmsScore q.2 > nmsScore best.2 then pickBest q qs
      else pickBest best qs := rfl

theorem pickBest_nil (best : ℕ × Row) : pickBest best [] = best := rfl

theorem nmsGo_nil (nt : ℚ) (agn : Bool) (fuel : ℕ) :
    nmsGo nt agn fuel [] = [] := by cases fuel <;> rfl

theorem nmsGo_two (nt : ℚ) (agn : Bool) (p : ℕ × Row)
    (ps : List (ℕ × Row)) :
    nmsGo nt agn 2 (p :: ps) =
      (pickBest p ps).1 :: nmsGo nt agn 1 ((p :: ps).filter (fun q =>
        q.1 ≠ (pickBest p ps).1 &&
        !(decide (nt < iouXyxy (pickBest p ps).2 q.2) &&
          (agn || decide (clsOf q.2 = clsOf (pickBest p ps).2))))) := rfl

theorem nmsGo_one (nt : ℚ) (agn : Bool) (p : ℕ × Row)
    (ps : List (ℕ × Row)) :
    nmsGo nt agn 1 (p :: ps) =
      (pickBest p ps).1 :: nmsGo nt agn 0 ((p :: ps).filter (fun q =>
        q.1 ≠ (pickBest p ps).1 &&
        !(decide (nt < iouXyxy (pickBest p ps).2 q.2) &&
          (agn || decide (clsOf q.2 = clsOf (pickBest p ps).2))))) := rfl

theorem nmsGo_fuel_zero (nt : ℚ) (agn : Bool) (l : List (ℕ × Row)) :
    nmsGo nt agn 0 l = [] := by cases l <;> rfl

theorem nmsIndices_pair (nt : ℚ) (agn : Bool) (d1 d2 : Row) :
    nmsIndices nt agn [d1, d2] = nmsGo nt agn 2 [(0, d1), (1, d2)] := rfl

/-! ### Claim theorems -/

/-- C10: bboxes_iou never modifies its input arrays, even with
inplace=True: after running either in-place branch to its final state, the
fields holding bboxes_a and bboxes_b are unchanged — every in-place op
(sub_, clamp_min_, div_) rewrote only a freshly allocated local tensor. -/
theorem bboxes_iou_preserves_inputs (A B : List Row) (xyxy : Bool) :
    (inplaceEnv A B xyxy).a = A ∧ (inplaceEnv A B xyxy).b = B := by
  cases xyxy <;>
    simp [inplaceEnv, runInplaceXyxy, runInplaceCxcywh, stepDiv, stepUnion,
      stepAreaBXyxy, stepAreaAXyxy, stepAreaBWH, stepAreaAWH, stepProd,
      stepClamp, stepSub, stepBrXyxy, stepTlXyxy, stepBrCxcywh,
      stepTlCxcywh, initEnv]

/-- C1: on 4-column inputs, bboxes_iou with inplace=True returns the same
IoU matrix as bboxes_iou with inplace=False, for either value of the xyxy
flag. -/
theorem bboxes_iou_inplace_equiv (A B : Mat) (xyxy : Bool)
    (hA : A.cols = 4) (hB : B.cols = 4) :
    bboxes_iou A B xyxy true = bboxes_iou A B xyxy false := by
  have h : inplaceIous A.rows B.rows xyxy = freshIous A.rows B.rows xyxy := by
    cases xyxy <;>
      simp [inplaceIous, inplaceEnv, runInplaceXyxy, runInplaceCxcywh,
        freshIous, stepDiv, stepUnion, stepAreaBXyxy, stepAreaAXyxy,
        stepAreaBWH, stepAreaAWH, stepProd, stepClamp, stepSub,
        stepBrXyxy, stepTlXyxy, stepBrCxcywh, stepTlCxcywh, initEnv]
  simp [bboxes_iou, hA, hB, h]

/-- Witness for C1 at the spec's worked example boxes. -/
theorem bboxes_iou_inplace_equiv_witness :
    bboxes_iou ⟨[[0, 0, 10, 10]], 4, rfl⟩ ⟨[[5, 5, 15, 15]], 4, rfl⟩
        true true =
      bboxes_iou ⟨[[0, 0, 10, 10]], 4, rfl⟩ ⟨[[5, 5, 15, 15]], 4, rfl⟩
        true false :=
  bboxes_iou_inplace_equiv _ _ true rfl rfl

/-- C6: bboxes_iou fails with the IndexError if and only if one of its
inputs does not have exactly 4 columns; with two 4-column inputs the call
returns a result instead. -/
theorem bboxes_iou_raises_iff (A B : Mat) (xyxy ip : Bool) :
    bboxes_iou A B xyxy ip = Except.error PyErr.indexError ↔
      (A.cols ≠ 4 ∨ B.cols ≠ 4) := by
  by_cases h : A.cols ≠ 4 ∨ B.cols ≠ 4
  · simp [bboxes_iou, h]
  · cases ip <;> simp [bboxes_iou, h]

/-- C8: xyxy2xywh followed by the reconstruction x2 = x1 + w, y2 = y1 + h
reproduces the original corner coordinates exactly, and xyxy2cxcywh
followed by x1 = cx - w/2, y1 = cy - h/2, x2 = cx + w/2, y2 = cy + h/2
does as well, on every box batch. -/
theorem xyxy_roundtrip (bboxes : List Row4) :
    (xyxy2xywh bboxes).map reconXywh = bboxes ∧
    (xyxy2cxcywh bboxes).map reconCxcywh = bboxes := by
  have h1 : ∀ b : Row4, reconXywh (rowXyxy2xywh b) = b := by
    intro b
    ext <;> simp [rowXyxy2xywh, reconXywh]
  have h2 : ∀ b : Row4, reconCxcywh (rowXyxy2cxcywh b) = b := by
    intro b
    ext <;> simp [rowXyxy2cxcywh, reconCxcywh] <;> ring
  constructor
  · simp [xyxy2xywh, List.map_map, Function.comp_def, h1]
  · simp [xyxy2cxcywh, List.map_map, Function.comp_def, h2]

/-- C9: filter_box keeps exactly the rows whose area w*h lies strictly
between min_scale² and max_scale², preserving their relative order; when
no row qualifies the result is the empty batch. -/
theorem filter_box_strict (output : List Row) (min_scale max_scale : ℚ) :
    filter_box output (min_scale, max_scale) =
      output.filter (fun r =>
        decide (min_scale * min_scale < rowW r * rowH r ∧
          rowW r * rowH r < max_scale * max_scale)) := by
  unfold filter_box
  rw [maskSelect_map_self]
  congr 1
  funext r
  by_cases h1 : min_scale * min_scale < rowW r * rowH r <;>
    by_cases h2 : rowW r * rowH r < max_scale * max_scale <;>
      simp [h1, h2]

/-- C4: two non-degenerate corner-form boxes with an empty intersection
get IoU exactly 0 from bboxes_iou with xyxy=True under either inplace
setting, and from matrix_iou. -/
theorem iou_disjoint_zero (a0 a1 a2 a3 b0 b1 b2 b3 : ℚ)
    (ha1 : a0 < a2) (ha2 : a1 < a3) (hb1 : b0 < b2) (hb2 : b1 < b3)
    (hdisj : min a2 b2 ≤ max a0 b0 ∨ min a3 b3 ≤ max a1 b1) :
    bboxes_iou ⟨[[a0, a1, a2, a3]], 4, rfl⟩ ⟨[[b0, b1, b2, b3]], 4, rfl⟩
        true true = Except.ok [[0]] ∧
    bboxes_iou ⟨[[a0, a1, a2, a3]], 4, rfl⟩ ⟨[[b0, b1, b2, b3]], 4, rfl⟩
        true false = Except.ok [[0]] ∧
    matrix_iou [[a0, a1, a2, a3]] [[b0, b1, b2, b3]] = [[0]] := by
  have hz : max (min a2 b2 - max a0 b0) 0 * max (min a3 b3 - max a1 b1) 0
      = 0 := by
    refine clamp_prod_zero _ _ ?_
    rcases hdisj with h | h
    exacts [Or.inl (sub_nonpos.mpr h), Or.inr (sub_nonpos.mpr h)]
  have hmask : ¬ (max a0 b0 < min a2 b2 ∧ max a1 b1 < min a3 b3) := by
    rcases hdisj with h | h
    · exact fun hc => absurd hc.1 (not_lt.mpr h)
    · exact fun hc => absurd hc.2 (not_lt.mpr h)
  refine ⟨?_, ?_, ?_⟩
  · rw [bboxes_iou_xyxy_entry, hz, zero_div]
  · rw [bboxes_iou_xyxy_entry, hz, zero_div]
  · rw [matrix_iou_entry, if_neg hmask, mul_zero, zero_div]

/-- Witness for C4 at two separated unit boxes. -/
theorem iou_disjoint_zero_witness :
    bboxes_iou ⟨[[0, 0, 1, 1]], 4, rfl⟩ ⟨[[2, 2, 3, 3]], 4, rfl⟩
        true true = Except.ok [[0]] ∧
    bboxes_iou ⟨[[0, 0, 1, 1]], 4, rfl⟩ ⟨[[2, 2, 3, 3]], 4, rfl⟩
        true false = Except.ok [[0]] ∧
    matrix_iou [[0, 0, 1, 1]] [[2, 2, 3, 3]] = [[0]] :=
  iou_disjoint_zero 0 0 1 1 2 2 3 3 (by norm_num) (by norm_num)
    (by norm_num) (by norm_num) (Or.inl (by norm_num))

/-- C5 counterexample: the claim that self-IoU is exactly 1.0 in both
variants fails on the array variant at the unit box [0, 0, 1, 1], whose
matrix_iou self-IoU is 10¹²/(10¹² + 1), not 1, because of the epsilon in
the denominator. -/
theorem matrix_iou_self_ne_one :
    matrix_iou [[0, 0, 1, 1]] [[0, 0, 1, 1]] ≠ [[1]] := by
  rw [matrix_iou_entry]
  norm_num [matEps]

/-- C5 amended: for every non-degenerate corner-form box, the self-IoU of
the tensor variant bboxes_iou (xyxy=True, either inplace setting) is
exactly 1, while the array variant matrix_iou yields
area / (area + 1e-12), strictly less than 1. -/
theorem self_iou_amended (b0 b1 b2 b3 : ℚ) (h1 : b0 < b2) (h2 : b1 < b3) :
    bboxes_iou ⟨[[b0, b1, b2, b3]], 4, rfl⟩ ⟨[[b0, b1, b2, b3]], 4, rfl⟩
        true true = Except.ok [[1]] ∧
    bboxes_iou ⟨[[b0, b1, b2, b3]], 4, rfl⟩ ⟨[[b0, b1, b2, b3]], 4, rfl⟩
        true false = Except.ok [[1]] ∧
    matrix_iou [[b0, b1, b2, b3]] [[b0, b1, b2, b3]] =
      [[(b2 - b0) * (b3 - b1) / ((b2 - b0) * (b3 - b1) + matEps)]] ∧
    (b2 - b0) * (b3 - b1) / ((b2 - b0) * (b3 - b1) + matEps) < 1 := by
  have hw : (0 : ℚ) < b2 - b0 := sub_pos.mpr h1
  have hh : (0 : ℚ) < b3 - b1 := sub_pos.mpr h2
  have hA : (0 : ℚ) < (b2 - b0) * (b3 - b1) := mul_pos hw hh
  have heps : (0 : ℚ) < matEps := by norm_num [matEps]
  refine ⟨?_, ?_, ?_, ?_⟩
  · rw [bboxes_iou_xyxy_entry]
    simp only [min_self, max_self]
    rw [max_eq_left hw.le, max_eq_left hh.le, add_sub_cancel_right,
      div_self hA.ne']
  · rw [bboxes_iou_xyxy_entry]
    simp only [min_self, max_self]
    rw [max_eq_left hw.le, max_eq_left hh.le, add_sub_cancel_right,
      div_self hA.ne']
  · rw [matrix_iou_entry]
    simp only [min_self, max_self]
    rw [if_pos ⟨h1, h2⟩]
    simp only [mul_one]
    rw [add_sub_cancel_right]
  · exact (div_lt_one (add_pos hA heps)).mpr (lt_add_of_pos_right _ heps)

/-- Witness for C5 (amended) at the unit box. -/
theorem self_iou_amended_witness :
    bboxes_iou ⟨[[0, 0, 1, 1]], 4, rfl⟩ ⟨[[0, 0, 1, 1]], 4, rfl⟩
        true true = Except.ok [[1]] ∧
    bboxes_iou ⟨[[0, 0, 1, 1]], 4, rfl⟩ ⟨[[0, 0, 1, 1]], 4, rfl⟩
        true false = Except.ok [[1]] ∧
    matrix_iou [[0, 0, 1, 1]] [[0, 0, 1, 1]] =
      [[((1 : ℚ) - 0) * ((1 : ℚ) - 0) /
        (((1 : ℚ) - 0) * ((1 : ℚ) - 0) + matEps)]] ∧
    ((1 : ℚ) - 0) * ((1 : ℚ) - 0) /
        (((1 : ℚ) - 0) * ((1 : ℚ) - 0) + matEps) < 1 :=
  self_iou_amended 0 0 1 1 (by norm_num) (by norm_num)

/-- C2: in postprocess, the rows handed to NMS for an image are exactly
the corner-converted candidate rows whose fused confidence (objectness
times best class score) is at least conf_thre, in order; and when that
filtered set is empty the image's result is the no-detections sentinel. -/
theorem postprocess_conf_filter (nc : ℕ) (ct : ℚ) (kp sg : Bool)
    (img : List Row) :
    retainedForNMS nc ct kp sg img =
      ((img.map cornerizeRow).filter
        (fun r => decide (ct ≤ fusedConf nc r))).map (buildDet nc kp sg) ∧
    ∀ (nt : ℚ) (agn : Bool), retainedForNMS nc ct kp sg img = [] →
      postprocessImage nc ct nt agn kp sg img = none := by
  constructor
  · unfold retainedForNMS
    rw [maskSelect_map_map]
    rfl
  · intro nt agn h
    cases himg : img.isEmpty <;> simp [postprocessImage, himg, h]

/-- Witness for C2: a single below-threshold candidate leaves the filtered
set empty and the image result is the sentinel. -/
theorem postprocess_conf_filter_witness :
    postprocessImage 1 (1 / 2) (45 / 100) false false false
      [[0, 0, 2, 2, 1, 1 / 4]] = none :=
  (postprocess_conf_filter 1 (1 / 2) false false
    [[0, 0, 2, 2, 1, 1 / 4]]).2 (45 / 100) false
    (by norm_num [retainedForNMS, maskSelect, cornerizeRow, buildDet,
      confBool, fusedConf, classScores, classMax, classMaxGo])

/-- C7: in the result of adjust_lmks_anns, a landmark pair whose original
x or y coordinate was at most 0 comes out as (-1, -1) whatever the scale
and padding parameters are, and a landmark pair whose transformed x falls
outside [0, w_max] or transformed y falls outside [0, h_max] also comes
out as (-1, -1). -/
theorem adjust_lmks_invalidation (sr pw ph wM hM : ℚ) (lms : List Row)
    (j k : ℕ) (hj : j < lms.length)
    (hk : 2 * k + 1 < (lms.getD j []).length) :
    (((lms.getD j []).getD (2 * k) 0 ≤ 0 ∨
        (lms.getD j []).getD (2 * k + 1) 0 ≤ 0) →
      ((adjust_lmks_anns sr pw ph wM hM lms).getD j []).getD (2 * k) 0
          = -1 ∧
      ((adjust_lmks_anns sr pw ph wM hM lms).getD j []).getD (2 * k + 1) 0
          = -1) ∧
    (((lms.getD j []).getD (2 * k) 0 * sr + pw < 0 ∨
        wM < (lms.getD j []).getD (2 * k) 0 * sr + pw ∨
        (lms.getD j []).getD (2 * k + 1) 0 * sr + ph < 0 ∨
        hM < (lms.getD j []).getD (2 * k + 1) 0 * sr + ph) →
      ((adjust_lmks_anns sr pw ph wM hM lms).getD j []).getD (2 * k) 0
          = -1 ∧
      ((adjust_lmks_anns sr pw ph wM hM lms).getD j []).getD (2 * k + 1) 0
          = -1) := by
  have hmap : (adjust_lmks_anns sr pw ph wM hM lms).getD j [] =
      boundsRow wM hM (combineRow (scaleRow sr pw ph (lms.getD j []))
        (maskRow (lms.getD j []))) := by
    unfold adjust_lmks_anns
    exact getD_map lms _ j [] [] hj
  rw [hmap]
  exact adjustRow_pair sr pw ph wM hM k _ hk

/-- Witness for C7: a pair with original x below 0 is invalidated, and a
pair transformed past w_max is invalidated. -/
theorem adjust_lmks_invalidation_witness :
    ((adjust_lmks_anns 1 0 0 10 10 [[-2, 5, 20, 5]]).getD 0 []).getD 0 0
        = -1 ∧
    ((adjust_lmks_anns 1 0 0 10 10 [[-2, 5, 20, 5]]).getD 0 []).getD 1 0
        = -1 ∧
    ((adjust_lmks_anns 1 0 0 10 10 [[-2, 5, 20, 5]]).getD 0 []).getD 2 0
        = -1 ∧
    ((adjust_lmks_anns 1 0 0 10 10 [[-2, 5, 20, 5]]).getD 0 []).getD 3 0
        = -1 := by
  have h1 := (adjust_lmks_invalidation 1 0 0 10 10 [[-2, 5, 20, 5]] 0 0
    (by norm_num) (by norm_num)).1 (Or.inl (by norm_num))
  have h2 := (adjust_lmks_invalidation 1 0 0 10 10 [[-2, 5, 20, 5]] 0 1
    (by norm_num) (by norm_num)).2 (Or.inr (Or.inl (by norm_num)))
  exact ⟨h1.1, h1.2, h2.1, h2.2⟩

/-- C3: for an image whose filtered candidate set is exactly two
detections eligible for joint suppression (class-agnostic mode or equal
class ids) with differing fused scores, postprocess keeps only the
higher-scoring detection when their IoU exceeds nms_thre, and keeps both
(higher first) when their IoU is at most nms_thre. -/
theorem postprocess_two_box_nms (nc : ℕ) (ct nt : ℚ) (agn kp sg : Bool)
    (img : List Row) (d1 d2 : Row)
    (hset : retainedForNMS nc ct kp sg img = [d1, d2] ∨
            retainedForNMS nc ct kp sg img = [d2, d1])
    (hsc : nmsScore d2 < nmsScore d1)
    (hel : agn = true ∨ clsOf d1 = clsOf d2) :
    (nt < iouXyxy d1 d2 →
      postprocessImage nc ct nt agn kp sg img = some [d1]) ∧
    (iouXyxy d1 d2 ≤ nt →
      postprocessImage nc ct nt agn kp sg img = some [d1, d2]) := by
  have hfind : img.isEmpty = false := by
    cases img with
    | nil =>
      exfalso
      rcases hset with hret | hret <;> exact List.noConfusion hret
    | cons a as => rfl
  have hcls2 : (agn || decide (clsOf d2 = clsOf d1)) = true := by
    rcases hel with h | h
    · rw [h, Bool.true_or]
    · rw [h]
      simp
  have hcls3 : ¬ (agn = false ∧ ¬ clsOf d2 = clsOf d1) := by
    rcases hel with h | h
    · rw [h]
      simp
    · exact fun hc => hc.2 h.symm
  constructor
  · intro hio
    have hiod : decide (nt < iouXyxy d1 d2) = true := decide_eq_true hio
    rcases hset with hret | hret <;>
      simp [postprocessImage, hfind, hret, nmsIndices_pair, nmsGo_two,
        nmsGo_one, nmsGo_nil, nmsGo_fuel_zero, pickBest_cons, pickBest_nil,
        List.filter_cons, hsc, lt_asymm hsc, hiod, hcls2, hcls3]
  · intro hio
    have hiod : decide (nt < iouXyxy d1 d2) = false :=
      decide_eq_false (not_lt.mpr hio)
    rcases hset with hret | hret <;>
      simp [postprocessImage, hfind, hret, nmsIndices_pair, nmsGo_two,
        nmsGo_one, nmsGo_nil, nmsGo_fuel_zero, pickBest_cons, pickBest_nil,
        List.filter_cons, hsc, lt_asymm hsc, hiod, hcls2, hcls3]

/-- Witness for C3: two coincident boxes (IoU 1) with scores 9/10 and 1/2
leave only the higher-scoring detection. -/
theorem postprocess_two_box_nms_witness :
    postprocessImage 1 (1 / 10) (45 / 100) false false false
      [[1, 1, 2, 2, 1, 9 / 10], [1, 1, 2, 2, 1, 1 / 2]] =
      some [[0, 0, 2, 2, 1, 9 / 10, 0]] :=
  (postprocess_two_box_nms 1 (1 / 10) (45 / 100) false false false
    [[1, 1, 2, 2, 1, 9 / 10], [1, 1, 2, 2, 1, 1 / 2]]
    [0, 0, 2, 2, 1, 9 / 10, 0] [0, 0, 2, 2, 1, 1 / 2, 0]
    (Or.inl (by norm_num [retainedForNMS, maskSelect, cornerizeRow,
      buildDet, confBool, fusedConf, classScores, classMax, classMaxGo]))
    (by norm_num [nmsScore])
    (Or.inr (by norm_num [clsOf]))).1
    (by norm_num [iouXyxy])

end Yolox
